import Mathlib

/-!
Verification of the RADIOSOUNDPOP2026 internet-radio player.

This file gives a shallow embedding of the metadata-acquisition logic of the
repository and proves the specified properties about it.

* Server side (`src/server.ts`, handler `app.get("/api/radio-stats")`):
  the proxy tries three status endpoints in order, returns the first
  ok + JSON-parseable body, falls back to the legacy comma-separated
  `7.html` status line, and otherwise answers HTTP 500.

* Client side (`RadioPlayer` component, function `fetchMetadata`):
  the raw `songtitle` string is split on the separator `" - "` into an
  (artist, title) pair, the bounded recently-played history is updated and
  persisted to local storage, failures degrade to a static placeholder.

JavaScript strings are embedded as Lean `String`s; where the code uses
`String.prototype.split`, the embedding `jsSplit` below reproduces the
JavaScript semantics for a non-empty separator on the underlying character
lists.  Network effects are passed in explicitly: each upstream fetch is an
argument of the function modelling the handler.
-/

/-- JavaScript `String.prototype.split` with a non-empty separator, on
character lists, written with an explicit fuel argument so that the
function is structurally recursive (the fuel is an upper bound on the
length of the remaining input; `jsSplit` instantiates it).  On a separator
match the whole separator is consumed and an empty chunk boundary is
emitted; otherwise the head character is added to the current chunk. -/
def jsSplitF {α : Type} [DecidableEq α] (sep : List α) : Nat → List α → List (List α)
  | 0, s => [s]
  | fuel + 1, s =>
    match s with
    | [] => [[]]
    | a :: s' =>
      if sep ≠ [] ∧ sep <+: s then
        [] :: jsSplitF sep fuel (s.drop sep.length)
      else
        match jsSplitF sep fuel s' with
        | [] => [[a]]
        | t :: ts => (a :: t) :: ts

/-- JavaScript `split`: `jsSplitF` with enough fuel. -/
def jsSplit {α : Type} [DecidableEq α] (sep s : List α) : List (List α) :=
  jsSplitF sep s.length s

/-! ## Server model (`src/server.ts`, `/api/radio-stats` handler) -/

/-- An upstream HTTP response, as far as the handler inspects it:
`response.ok`, whether the `content-type` header contains
`application/json`, and the body text. -/
structure UpstreamResponse where
  ok : Bool
  contentTypeJson : Bool
  body : String
deriving DecidableEq

/-- Outcome of one `fetch` call: either the promise rejects (network error,
timeout, ...) with an error message, or a response arrives. -/
inductive Fetched where
  | failure (msg : String)
  | success (resp : UpstreamResponse)
deriving DecidableEq

/-- What the handler sends back on `res`: the parsed JSON body of a status
endpoint (`res.json(data)`), the normalized legacy object
(`res.json({ songtitle: parts[6] })`), or the generic 500 failure
(`res.status(500).json({ error: ..., details: lastError })`). -/
inductive ProxyResponse (α : Type) where
  | ok (data : α)
  | legacy (songtitle : String)
  | err (details : Option String)
deriving DecidableEq

/-- HTTP status code of a handler answer: `res.json` answers 200, the
failure branch answers `res.status(500)`. -/
def statusCode {α : Type} : ProxyResponse α → Nat
  | .err _ => 500
  | _ => 200

/-- The three status endpoints, in the order of the `endpoints` array in
`server.ts`. -/
def urlStatsJsonHttps : String := "https://streaming.fox.srv.br:8150/stats?json=1"

/-- Second endpoint of the fallback loop. -/
def urlStatusXsl : String := "https://streaming.fox.srv.br:8150/status-json.xsl"

/-- Third endpoint of the fallback loop (HTTP fallback of the first). -/
def urlStatsJsonHttp : String := "http://streaming.fox.srv.br:8150/stats?json=1"

/-- `const endpoints = [...]` in `server.ts`. -/
def endpoints : List String := [urlStatsJsonHttps, urlStatusXsl, urlStatsJsonHttp]

/-- URL of the legacy status line tried after the loop. -/
def url7html : String := "https://streaming.fox.srv.br:8150/7.html"

/-- Timeout (ms) of each `fetch` inside the endpoint loop (`timeout: 4000`). -/
def endpointTimeoutMs : Nat := 4000

/-- Timeout (ms) of the legacy `7.html` fetch (`timeout: 3000`). -/
def legacyTimeoutMs : Nat := 3000

/-- The requests the handler can issue, in order, each with the timeout the
source passes to `fetch` at that call site. -/
def fallbackRequestsMs : List (String × Nat) :=
  endpoints.map (fun u => (u, endpointTimeoutMs)) ++ [(url7html, legacyTimeoutMs)]

/-- One iteration of the endpoint loop, for one fetched outcome.  Returns
the parsed data to send back (if the iteration hits a `return`), and the
error recorded into `lastError` (if the iteration throws).  Mirrors the
loop body: a rejected fetch is caught and recorded; an ok response is
parsed as JSON (via `response.json()` when the content type advertises
JSON, via `JSON.parse` on the text otherwise) and returned on success; a
parse failure under a JSON content type throws (so is recorded, modelled
by a fixed message), while under a non-JSON content type it only warns;
a non-ok response only warns.  `parse` stands for the JSON parser, `α` for
the type of parsed JSON documents. -/
def stepEndpoint {α : Type} (parse : String → Option α) : Fetched → Option α × Option String
  | .failure msg => (none, some msg)
  | .success r =>
    if r.ok then
      match parse r.body with
      | some d => (some d, none)
      | none => (none, if r.contentTypeJson then some "invalid json" else none)
    else (none, none)

/-- Whether the loop iteration for URL `u` returns a response. -/
def loopSucceeds {α : Type} (parse : String → Option α) (env : String → Fetched) (u : String) :
    Option α :=
  (stepEndpoint parse (env u)).1

/-- The `for (const url of endpoints)` loop: runs the iterations in order,
stopping at the first that returns; yields the returned data (if any), the
final `lastError`, and the list of URLs actually fetched.  `env` gives the
outcome of fetching each URL. -/
def runEndpoints {α : Type} (parse : String → Option α) (env : String → Fetched) :
    List String → Option String → Option α × Option String × List String
  | [], lastErr => (none, lastErr, [])
  | u :: rest, lastErr =>
    match stepEndpoint parse (env u) with
    | (some d, _) => (some d, lastErr, [u])
    | (none, some m) =>
      let r := runEndpoints parse env rest (some m)
      (r.1, r.2.1, u :: r.2.2)
    | (none, none) =>
      let r := runEndpoints parse env rest lastErr
      (r.1, r.2.1, u :: r.2.2)

/-- The legacy `7.html` attempt: on an ok response the body is split on
commas and, when at least 7 fields result, the 7th field is the songtitle;
in every other case (rejected fetch, non-ok response, fewer than 7 fields)
the attempt yields nothing. -/
def legacy7 (f : Fetched) : Option String :=
  match f with
  | .failure _ => none
  | .success r =>
    if r.ok then
      let parts := jsSplit [','] r.body.toList
      if 7 ≤ parts.length then some (String.mk (parts.getD 6 [])) else none
    else none

/-- The whole `/api/radio-stats` handler: the endpoint loop, then the
legacy attempt, then the 500 failure.  Returns the answer sent on `res`
together with the ordered list of URLs fetched. -/
def radioStats {α : Type} (parse : String → Option α) (env : String → Fetched) :
    ProxyResponse α × List String :=
  match runEndpoints parse env endpoints none with
  | (some d, _, tr) => (.ok d, tr)
  | (none, lastErr, tr) =>
    match legacy7 (env url7html) with
    | some s => (.legacy s, tr ++ [url7html])
    | none => (.err lastErr, tr ++ [url7html])

/-! ## Client model (`RadioPlayer` component, `fetchMetadata`) -/

/-- The separator `' - '` used by `data.songtitle.split(' - ')`. -/
def sepDash : List Char := " - ".toList

/-- The (artist, songtitle) derivation of `fetchMetadata`:
`const [artistName, ...songParts] = data.songtitle.split(' - ');`
`const songTitle = songParts.join(' - ') || data.songtitle;`
`const artist = artistName || fallbackArtist;`
(the fallback artist is `'SoundPop'` in the main component and
`'Rádio Fox'` in `RadioPlayer.tsx`; JavaScript `||` takes the fallback
exactly when the left side is the empty string). -/
def deriveArtistTitleWith (fallbackArtist : String) (raw : String) : String × String :=
  let parts := jsSplit sepDash raw.toList
  let artistName := parts.headD []
  let joined := List.intercalate sepDash parts.tail
  let songTitle := if joined = [] then raw else String.mk joined
  let artist := if artistName = [] then fallbackArtist else String.mk artistName
  (artist, songTitle)

/-- The derivation as used by the main component (fallback `'SoundPop'`). -/
def deriveArtistTitle (raw : String) : String × String :=
  deriveArtistTitleWith "SoundPop" raw

/-- One entry of the recently-played history (`HistoryItem`). -/
structure HistoryItem where
  songtitle : String
  artist : String
  cover : Option String
  timestamp : Nat
deriving DecidableEq

/-- The duplicate test of the history updater:
`lastItem && lastItem.songtitle === songTitle && lastItem.artist === artist`. -/
def isDupHead (songTitle artist : String) (prev : List HistoryItem) : Bool :=
  match prev.head? with
  | some lastItem => lastItem.songtitle == songTitle && lastItem.artist == artist
  | none => false

/-- The `setHistory(prev => ...)` updater: if the incoming track equals the
head entry the list is returned unchanged and nothing is written to local
storage; otherwise the new item is prepended, the list is truncated to its
first 10 entries, that list is written to local storage and returned.
The second component is the value written to the `radio_history` local
storage key (if any). -/
def historyStep (songTitle artist : String) (coverUrl : Option String) (now : Nat)
    (prev : List HistoryItem) : List HistoryItem × Option (List HistoryItem) :=
  if isDupHead songTitle artist prev then (prev, none)
  else
    let newItem : HistoryItem := ⟨songTitle, artist, coverUrl, now⟩
    let updatedHistory := (newItem :: prev).take 10
    (updatedHistory, some updatedHistory)

/-- Online/offline status of the displayed metadata. -/
inductive RadioStatus where
  | online
  | offline
deriving DecidableEq

/-- The `RadioMetadata` record displayed by the component; optional fields
model the absent object properties. -/
structure RadioMetadata where
  songtitle : String
  artist : Option String
  title : Option String
  cover : Option String
  status : RadioStatus
deriving DecidableEq

/-- The component state touched by `fetchMetadata` in the main component:
the displayed metadata, the history list, the persisted `radio_history`
local storage value (`none` when the key is absent), and the lyrics
panel state. -/
structure ClientState where
  metadata : RadioMetadata
  history : List HistoryItem
  storage : Option (List HistoryItem)
  lyrics : Option String
  showLyrics : Bool
deriving DecidableEq

/-- Outcome of the client `fetch(METADATA_URL)` + `response.json()`:
`failure` when the fetch rejects or the body is unparseable (both throw
into the catch branch); otherwise the value of `data.songtitle`, with
`none` standing for an absent or falsy `data` or a missing `songtitle`
property (JavaScript `data && data.songtitle`; the empty string is
likewise falsy and is modelled explicitly). -/
inductive ClientFetch where
  | failure
  | ok (songtitle : Option String)
deriving DecidableEq

/-- One run of the main component's `fetchMetadata`, as a state transition.
`coverUrl` is the result of the iTunes/Deezer cover lookup (its own
failures are caught internally and leave it `undefined`), `now` the value
of `Date.now()` at the history update.  The catch branch keeps the
previous metadata object and overwrites only `status`, `songtitle` and
`artist` (object spread), touching nothing else.  The success branch
replaces the metadata, resets the lyrics panel, and updates
history/storage through `historyStep`. -/
def clientFetchStep (outcome : ClientFetch) (coverUrl : Option String) (now : Nat)
    (st : ClientState) : ClientState :=
  match outcome with
  | .failure =>
    { st with metadata :=
      { st.metadata with
        status := .online
        songtitle := "Erro ao carregar metadados"
        artist := some "SoundPop" } }
  | .ok none => st
  | .ok (some raw) =>
    if raw = "" then st
    else
      let p := deriveArtistTitle raw
      let hist := historyStep p.2 p.1 coverUrl now st.history
      { metadata := ⟨p.2, some p.1, none, coverUrl, .online⟩
        history := hist.1
        storage := match hist.2 with | some l => some l | none => st.storage
        lyrics := none
        showLyrics := false }

/-- One run of `fetchMetadata` of `src/components/RadioPlayer.tsx` (the
variant without history/lyrics), as a transition on the displayed
metadata: the catch branch keeps the previous object and overwrites
`status`, `songtitle`, `artist`; the success branch replaces the metadata
(no cover lookup in this variant), with artist fallback `'Rádio Fox'`. -/
def rpFetchStep (outcome : ClientFetch) (m : RadioMetadata) : RadioMetadata :=
  match outcome with
  | .failure =>
    { m with
      status := .online
      songtitle := "Sintonizando..."
      artist := some "Rádio Fox" }
  | .ok none => m
  | .ok (some raw) =>
    if raw = "" then m
    else
      let p := deriveArtistTitleWith "Rádio Fox" raw
      ⟨p.2, some p.1, none, none, .online⟩

/-- Period (ms) of the metadata polling timer:
`setInterval(fetchMetadata, 10000)`. -/
def metadataPollPeriodMs : Nat := 10000

/-- Times (ms after mount) at which the client invokes `fetchMetadata`:
once immediately at mount (`fetchMetadata();`), then on every tick of the
single fixed-period interval timer. -/
def metadataFetchTimeMs (n : Nat) : Nat := n * metadataPollPeriodMs

/-! ## Properties of the split embedding -/

theorem intercalate_single {α : Type} (sep x : List α) :
    List.intercalate sep [x] = x := by
  simp [List.intercalate, List.intersperse]

theorem intercalate_cons_two {α : Type} (sep x y : List α) (zs : List (List α)) :
    List.intercalate sep (x :: y :: zs) = x ++ sep ++ List.intercalate sep (y :: zs) := by
  simp [List.intercalate, List.intersperse]

theorem jsSplitF_nil {α : Type} [DecidableEq α] (sep : List α) (fuel : Nat) :
    jsSplitF sep fuel [] = [[]] := by
  cases fuel <;> rfl

theorem jsSplitF_ne_nil {α : Type} [DecidableEq α] (sep : List α) (fuel : Nat) (s : List α) :
    jsSplitF sep fuel s ≠ [] := by
  induction fuel generalizing s with
  | zero => simp [jsSplitF]
  | succ fuel IH =>
    cases s with
    | nil => simp [jsSplitF]
    | cons a s' =>
      by_cases h : sep ≠ [] ∧ sep <+: a :: s'
      · simp [jsSplitF, h]
      · simp only [jsSplitF, if_neg h]
        cases heq : jsSplitF sep fuel s' with
        | nil => simp
        | cons t ts => simp

/-- The fuel is irrelevant as long as it dominates the input length. -/
theorem jsSplitF_congr {α : Type} [DecidableEq α] (sep : List α) (f g : Nat) (s : List α)
    (hf : s.length ≤ f) (hg : s.length ≤ g) :
    jsSplitF sep f s = jsSplitF sep g s := by
  induction f generalizing g s with
  | zero =>
    have : s = [] := List.length_eq_zero.mp (Nat.le_zero.mp hf)
    subst this
    rw [jsSplitF_nil, jsSplitF_nil]
  | succ f IH =>
    cases s with
    | nil => rw [jsSplitF_nil, jsSplitF_nil]
    | cons a s' =>
      cases g with
      | zero => simp at hg
      | succ g =>
        simp only [List.length_cons, Nat.succ_le_succ_iff] at hf hg
        by_cases h : sep ≠ [] ∧ sep <+: a :: s'
        · simp only [jsSplitF, if_pos h]
          have hsep : 1 ≤ sep.length := by
            have := h.1
            cases sep with
            | nil => simp at this
            | cons c cs => simp
          have hd : ((a :: s').drop sep.length).length ≤ f := by
            rw [List.length_drop]
            simp only [List.length_cons]
            omega
          have hd' : ((a :: s').drop sep.length).length ≤ g := by
            rw [List.length_drop]
            simp only [List.length_cons]
            omega
          rw [IH _ _ hd hd']
        · simp only [jsSplitF, if_neg h]
          rw [IH _ _ hf hg]

theorem jsSplit_eq_jsSplitF {α : Type} [DecidableEq α] (sep : List α) (fuel : Nat) (s : List α)
    (h : s.length ≤ fuel) : jsSplit sep s = jsSplitF sep fuel s :=
  jsSplitF_congr sep s.length fuel s (Nat.le_refl _) h

theorem jsSplit_ne_nil {α : Type} [DecidableEq α] (sep s : List α) :
    jsSplit sep s ≠ [] :=
  jsSplitF_ne_nil sep s.length s

/-- Splitting and re-joining on the separator is the identity. -/
theorem intercalate_jsSplitF {α : Type} [DecidableEq α] (sep : List α) (hsep : sep ≠ [])
    (fuel : Nat) (s : List α) (h : s.length ≤ fuel) :
    List.intercalate sep (jsSplitF sep fuel s) = s := by
  induction fuel generalizing s with
  | zero =>
    have : s = [] := List.length_eq_zero.mp (Nat.le_zero.mp h)
    subst this
    rw [jsSplitF_nil, intercalate_single]
  | succ fuel IH =>
    cases s with
    | nil => rw [jsSplitF_nil, intercalate_single]
    | cons a s' =>
      simp only [List.length_cons, Nat.succ_le_succ_iff] at h
      by_cases hc : sep ≠ [] ∧ sep <+: a :: s'
      · simp only [jsSplitF, if_pos hc]
        have hsl : 1 ≤ sep.length := by
          cases sep with
          | nil => exact absurd rfl hsep
          | cons c cs => simp
        have hd : (((a :: s')).drop sep.length).length ≤ fuel := by
          rw [List.length_drop]
          simp only [List.length_cons]
          omega
        cases heq : jsSplitF sep fuel ((a :: s').drop sep.length) with
        | nil => exact absurd heq (jsSplitF_ne_nil sep fuel _)
        | cons t ts =>
          have hIH := IH _ hd
          rw [heq] at hIH
          rw [intercalate_cons_two, List.nil_append, hIH]
          have htake := List.prefix_iff_eq_take.mp hc.2
          conv_rhs => rw [← List.take_append_drop sep.length (a :: s')]
          rw [← htake]
      · simp only [jsSplitF, if_neg hc]
        cases heq : jsSplitF sep fuel s' with
        | nil => exact absurd heq (jsSplitF_ne_nil sep fuel _)
        | cons t ts =>
          have hIH := IH _ h
          rw [heq] at hIH
          cases ts with
          | nil =>
            rw [intercalate_single] at hIH ⊢
            rw [hIH]
          | cons u us =>
            rw [intercalate_cons_two] at hIH ⊢
            rw [List.cons_append, List.cons_append, hIH]

theorem intercalate_jsSplit {α : Type} [DecidableEq α] (sep s : List α) (hsep : sep ≠ []) :
    List.intercalate sep (jsSplit sep s) = s :=
  intercalate_jsSplitF sep hsep s.length s (Nat.le_refl _)

/-- The first chunk of the split is an initial segment of the input. -/
theorem jsSplitF_head_initial {α : Type} [DecidableEq α] (sep : List α) (fuel : Nat)
    (s : List α) : (jsSplitF sep fuel s).headD [] <+: s := by
  induction fuel generalizing s with
  | zero => simp [jsSplitF]
  | succ fuel IH =>
    cases s with
    | nil => simp [jsSplitF]
    | cons a s' =>
      by_cases h : sep ≠ [] ∧ sep <+: a :: s'
      · simp only [jsSplitF, if_pos h, List.headD_cons]
        exact List.nil_prefix
      · simp only [jsSplitF, if_neg h]
        cases heq : jsSplitF sep fuel s' with
        | nil => exact absurd heq (jsSplitF_ne_nil sep fuel _)
        | cons t ts =>
          have := IH s'
          rw [heq] at this
          simp only [List.headD_cons] at this ⊢
          exact List.cons_prefix_cons.mpr ⟨rfl, this⟩

/-- The separator does not occur inside the first chunk of the split:
the first chunk really ends at the first occurrence of the separator. -/
theorem jsSplitF_head_no_sep {α : Type} [DecidableEq α] (sep : List α) (hsep : sep ≠ [])
    (fuel : Nat) (s : List α) (h : s.length ≤ fuel) :
    ∀ a b : List α, (jsSplitF sep fuel s).headD [] ≠ a ++ sep ++ b := by
  have hsl : 1 ≤ sep.length := by
    cases sep with
    | nil => exact absurd rfl hsep
    | cons c cs => simp
  induction fuel generalizing s with
  | zero =>
    have : s = [] := List.length_eq_zero.mp (Nat.le_zero.mp h)
    subst this
    rw [jsSplitF_nil]
    intro a b hcon
    simp only [List.headD_cons] at hcon
    have := congrArg List.length hcon
    simp at this
    omega
  | succ fuel IH =>
    cases s with
    | nil =>
      rw [jsSplitF_nil]
      intro a b hcon
      simp only [List.headD_cons] at hcon
      have := congrArg List.length hcon
      simp at this
      omega
    | cons c s' =>
      simp only [List.length_cons, Nat.succ_le_succ_iff] at h
      by_cases hc : sep ≠ [] ∧ sep <+: c :: s'
      · simp only [jsSplitF, if_pos hc, List.headD_cons]
        intro a b hcon
        have := congrArg List.length hcon
        simp at this
        omega
      · simp only [jsSplitF, if_neg hc]
        cases heq : jsSplitF sep fuel s' with
        | nil => exact absurd heq (jsSplitF_ne_nil sep fuel _)
        | cons t ts =>
          simp only [List.headD_cons]
          intro a b hcon
          cases a with
          | nil =>
            simp only [List.nil_append] at hcon
            have hpre1 : sep <+: c :: t := ⟨b, hcon.symm⟩
            have ht : t <+: s' := by
              have := jsSplitF_head_initial sep fuel s'
              rw [heq] at this
              simpa using this
            have hpre2 : (c :: t) <+: c :: s' := List.cons_prefix_cons.mpr ⟨rfl, ht⟩
            exact hc ⟨hsep, hpre1.trans hpre2⟩
          | cons d a' =>
            simp only [List.cons_append] at hcon
            have hd : c = d := (List.cons.injEq _ _ _ _).mp hcon |>.1
            have ht : t = a' ++ sep ++ b := (List.cons.injEq _ _ _ _).mp hcon |>.2
            have := IH s' h a' b
            rw [heq] at this
            simp only [List.headD_cons] at this
            exact this ht

/-- If the separator occurs in the input, the split has at least two
chunks. -/
theorem jsSplitF_two_le {α : Type} [DecidableEq α] (sep : List α) (hsep : sep ≠ [])
    (fuel : Nat) (s a b : List α) (hs : s = a ++ sep ++ b) (h : s.length ≤ fuel) :
    2 ≤ (jsSplitF sep fuel s).length := by
  induction fuel generalizing s a with
  | zero =>
    exfalso
    have h0 : s = [] := List.length_eq_zero.mp (Nat.le_zero.mp h)
    rw [h0] at hs
    have := congrArg List.length hs
    simp at this
    have : 1 ≤ sep.length := by
      cases sep with
      | nil => exact absurd rfl hsep
      | cons c cs => simp
    omega
  | succ fuel IH =>
    cases s with
    | nil =>
      exfalso
      have := congrArg List.length hs
      simp at this
      have : 1 ≤ sep.length := by
        cases sep with
        | nil => exact absurd rfl hsep
        | cons c cs => simp
      omega
    | cons c s' =>
      simp only [List.length_cons, Nat.succ_le_succ_iff] at h
      by_cases hc : sep ≠ [] ∧ sep <+: c :: s'
      · simp only [jsSplitF, if_pos hc, List.length_cons]
        have := jsSplitF_ne_nil sep fuel ((c :: s').drop sep.length)
        have h1 : 1 ≤ (jsSplitF sep fuel ((c :: s').drop sep.length)).length :=
          Nat.one_le_iff_ne_zero.mpr (fun h0 => this (List.length_eq_zero.mp h0))
        omega
      · cases a with
        | nil =>
          exfalso
          simp only [List.nil_append] at hs
          exact hc ⟨hsep, ⟨b, hs.symm⟩⟩
        | cons d a' =>
          simp only [List.cons_append] at hs
          have hd : c = d := (List.cons.injEq _ _ _ _).mp hs |>.1
          have hs' : s' = a' ++ sep ++ b := (List.cons.injEq _ _ _ _).mp hs |>.2
          simp only [jsSplitF, if_neg hc]
          cases heq : jsSplitF sep fuel s' with
          | nil => exact absurd heq (jsSplitF_ne_nil sep fuel _)
          | cons t ts =>
            have := IH s' a' hs' h
            rw [heq] at this
            simp only [List.length_cons] at this ⊢
            omega

theorem jsSplit_head_no_sep {α : Type} [DecidableEq α] (sep s : List α) (hsep : sep ≠ []) :
    ∀ a b : List α, (jsSplit sep s).headD [] ≠ a ++ sep ++ b :=
  jsSplitF_head_no_sep sep hsep s.length s (Nat.le_refl _)

theorem jsSplit_two_le {α : Type} [DecidableEq α] (sep s a b : List α) (hsep : sep ≠ [])
    (hs : s = a ++ sep ++ b) : 2 ≤ (jsSplit sep s).length :=
  jsSplitF_two_le sep hsep s.length s a b hs (Nat.le_refl _)

/-- C9: the client's (artist, title) derivation is lossless whenever the
separator `" - "` occurs in the raw songtitle, provided the part before
the first separator and the remainder after it are both nonempty (the
`||` fallbacks of the code fire exactly on the empty string): the derived
artist is the chunk before the first separator occurrence (the third and
fourth conjuncts state that it is an initial segment ending at a
separator occurrence and itself free of the separator), the derived title
is the remainder with interior separators preserved, and
`artist ++ " - " ++ title` reconstructs the raw songtitle exactly. -/
theorem derive_split_lossless (raw : String)
    (hocc : ∃ a b : List Char, raw.toList = a ++ sepDash ++ b)
    (hhead : (jsSplit sepDash raw.toList).headD [] ≠ [])
    (hrest : List.intercalate sepDash (jsSplit sepDash raw.toList).tail ≠ []) :
    (deriveArtistTitle raw).1 = String.mk ((jsSplit sepDash raw.toList).headD []) ∧
    (deriveArtistTitle raw).2 =
      String.mk (List.intercalate sepDash (jsSplit sepDash raw.toList).tail) ∧
    raw.toList = (jsSplit sepDash raw.toList).headD [] ++ sepDash ++
      List.intercalate sepDash (jsSplit sepDash raw.toList).tail ∧
    (∀ a b : List Char, (jsSplit sepDash raw.toList).headD [] ≠ a ++ sepDash ++ b) ∧
    (deriveArtistTitle raw).1 ++ " - " ++ (deriveArtistTitle raw).2 = raw := by
  have hsep : sepDash ≠ [] := by decide
  obtain ⟨a, b, hab⟩ := hocc
  have h2 : 2 ≤ (jsSplit sepDash raw.toList).length :=
    jsSplit_two_le sepDash raw.toList a b hsep hab
  have hjoin : List.intercalate sepDash (jsSplit sepDash raw.toList) = raw.toList :=
    intercalate_jsSplit sepDash raw.toList hsep
  have hnos := jsSplit_head_no_sep sepDash raw.toList hsep
  cases heq : jsSplit sepDash raw.toList with
  | nil => exact absurd heq (jsSplit_ne_nil sepDash raw.toList)
  | cons p ps =>
    cases ps with
    | nil =>
      exfalso
      rw [heq] at h2
      simp at h2
    | cons q rest =>
      rw [heq] at hjoin hnos hhead hrest
      simp only [List.headD_cons, List.tail_cons] at hnos hhead hrest ⊢
      rw [intercalate_cons_two] at hjoin
      have hart : (deriveArtistTitle raw).1 = String.mk p := by
        simp only [deriveArtistTitle, deriveArtistTitleWith, heq, List.headD_cons,
          List.tail_cons]
        rw [if_neg hhead]
      have htit : (deriveArtistTitle raw).2 =
          String.mk (List.intercalate sepDash (q :: rest)) := by
        simp only [deriveArtistTitle, deriveArtistTitleWith, heq, List.headD_cons,
          List.tail_cons]
        rw [if_neg hrest]
      refine ⟨hart, htit, hjoin.symm, hnos, ?_⟩
      rw [hart, htit]
      apply String.ext
      simp only [String.data_append]
      have hmk : ∀ l : List Char, (String.mk l).data = l := fun l => rfl
      rw [hmk, hmk]
      have hd2 : ([' ', '-', ' '] : List Char) = sepDash := rfl
      rw [hd2]
      exact hjoin

/-- C9, counterexample to the claim as stated: the songtitle `" - "`
contains the separator, the substring before the first separator is `""`,
but the derived artist is the fallback `"SoundPop"`, and reconstruction
does not return the original string. -/
theorem derive_split_counterexample :
    (" - " : String).toList = ([] : List Char) ++ sepDash ++ ([] : List Char) ∧
    (deriveArtistTitle " - ").1 = "SoundPop" ∧
    (deriveArtistTitle " - ").2 = " - " ∧
    (deriveArtistTitle " - ").1 ++ " - " ++ (deriveArtistTitle " - ").2 ≠ " - " := by
  decide

/-- Witness for `derive_split_lossless` at the concrete songtitle
`"Artist - Song"`. -/
theorem derive_split_lossless_witness :
    (deriveArtistTitle "Artist - Song").1 ++ " - " ++ (deriveArtistTitle "Artist - Song").2 =
      "Artist - Song" := by
  have h := derive_split_lossless "Artist - Song"
    ⟨"Artist".toList, "Song".toList, by decide⟩ (by decide) (by decide)
  exact h.2.2.2.2

/-! ## Server theorems -/

/-- A concrete JSON parser instance for witnesses: accepts exactly the
document `{}`. -/
def parseNat : String → Option Nat := fun s => if s = "{}" then some 0 else none

/-- Concrete environment: every fetch rejects. -/
def envAllDown : String → Fetched := fun _ => Fetched.failure "down"

/-- Concrete environment: only the second endpoint answers, with JSON. -/
def envSecondUp : String → Fetched := fun u =>
  if u = urlStatusXsl then Fetched.success ⟨true, true, "{}"⟩ else Fetched.failure "down"

/-- Concrete environment: only the legacy status line answers. -/
def envLegacyUp : String → Fetched := fun u =>
  if u = url7html then Fetched.success ⟨true, false, "a,b,c,d,e,f,Artist - Song"⟩
  else Fetched.failure "down"

/-- C1: the handler attempts the endpoints in exactly the declared order,
stops and answers with the parsed body at the first endpoint whose
iteration returns, and fetches the legacy `7.html` URL exactly when all
three loop iterations fall through (in which case the answer is never a
parsed status body). -/
theorem radioStats_fallback_order {α : Type} (parse : String → Option α)
    (env : String → Fetched) :
    (∀ d, loopSucceeds parse env urlStatsJsonHttps = some d →
      radioStats parse env = (ProxyResponse.ok d, [urlStatsJsonHttps])) ∧
    (loopSucceeds parse env urlStatsJsonHttps = none →
      ∀ d, loopSucceeds parse env urlStatusXsl = some d →
        radioStats parse env = (ProxyResponse.ok d, [urlStatsJsonHttps, urlStatusXsl])) ∧
    (loopSucceeds parse env urlStatsJsonHttps = none →
      loopSucceeds parse env urlStatusXsl = none →
      ∀ d, loopSucceeds parse env urlStatsJsonHttp = some d →
        radioStats parse env = (ProxyResponse.ok d, endpoints)) ∧
    (loopSucceeds parse env urlStatsJsonHttps = none →
      loopSucceeds parse env urlStatusXsl = none →
      loopSucceeds parse env urlStatsJsonHttp = none →
        (radioStats parse env).2 = endpoints ++ [url7html] ∧
        ∀ d, (radioStats parse env).1 ≠ ProxyResponse.ok d) := by
  rcases hA : stepEndpoint parse (env urlStatsJsonHttps) with ⟨dA, eA⟩
  rcases hB : stepEndpoint parse (env urlStatusXsl) with ⟨dB, eB⟩
  rcases hC : stepEndpoint parse (env urlStatsJsonHttp) with ⟨dC, eC⟩
  refine ⟨?_, ?_, ?_, ?_⟩
  · intro d h
    simp only [loopSucceeds, hA] at h
    subst h
    simp [radioStats, runEndpoints, endpoints, hA]
  · intro h0 d h
    simp only [loopSucceeds, hA] at h0
    simp only [loopSucceeds, hB] at h
    subst h0; subst h
    cases eA <;> simp [radioStats, runEndpoints, endpoints, hA, hB]
  · intro h0 h1 d h
    simp only [loopSucceeds, hA] at h0
    simp only [loopSucceeds, hB] at h1
    simp only [loopSucceeds, hC] at h
    subst h0; subst h1; subst h
    cases eA <;> cases eB <;> simp [radioStats, runEndpoints, endpoints, hA, hB, hC]
  · intro h0 h1 h2
    simp only [loopSucceeds, hA] at h0
    simp only [loopSucceeds, hB] at h1
    simp only [loopSucceeds, hC] at h2
    subst h0; subst h1; subst h2
    rcases h7 : legacy7 (env url7html) with _ | s <;> cases eA <;> cases eB <;> cases eC <;>
      simp [radioStats, runEndpoints, endpoints, hA, hB, hC, h7]

/-- Witness for `radioStats_fallback_order`: with only the second endpoint
up, the handler answers its parsed body after fetching the first two
URLs. -/
theorem radioStats_fallback_order_witness :
    radioStats parseNat envSecondUp = (ProxyResponse.ok 0, [urlStatsJsonHttps, urlStatusXsl]) :=
  (radioStats_fallback_order parseNat envSecondUp).2.1 (by decide) 0 (by decide)

/-- C2: when the three loop iterations fall through and the legacy
`7.html` response is ok with at least 7 comma-separated fields, the
handler answers the normalized object whose `songtitle` is the 7th
field. -/
theorem radioStats_legacy_field {α : Type} (parse : String → Option α)
    (env : String → Fetched)
    (hA : loopSucceeds parse env urlStatsJsonHttps = none)
    (hB : loopSucceeds parse env urlStatusXsl = none)
    (hC : loopSucceeds parse env urlStatsJsonHttp = none)
    (r : UpstreamResponse) (h7 : env url7html = Fetched.success r) (hok : r.ok = true)
    (hlen : 7 ≤ (jsSplit [','] r.body.toList).length) :
    radioStats parse env =
      (ProxyResponse.legacy (String.mk ((jsSplit [','] r.body.toList).getD 6 [])),
        endpoints ++ [url7html]) := by
  rcases hsA : stepEndpoint parse (env urlStatsJsonHttps) with ⟨dA, eA⟩
  rcases hsB : stepEndpoint parse (env urlStatusXsl) with ⟨dB, eB⟩
  rcases hsC : stepEndpoint parse (env urlStatsJsonHttp) with ⟨dC, eC⟩
  simp only [loopSucceeds, hsA] at hA
  simp only [loopSucceeds, hsB] at hB
  simp only [loopSucceeds, hsC] at hC
  subst hA; subst hB; subst hC
  have h7' : legacy7 (env url7html) =
      some (String.mk ((jsSplit [','] r.body.toList).getD 6 [])) := by
    simp only [legacy7, h7]
    rw [if_pos hok, if_pos hlen]
  cases eA <;> cases eB <;> cases eC <;>
    simp [radioStats, runEndpoints, endpoints, hsA, hsB, hsC, h7']

/-- Witness for `radioStats_legacy_field`: with only the legacy line up
and the body `"a,b,c,d,e,f,Artist - Song"`, the handler answers
`{ songtitle: "Artist - Song" }`. -/
theorem radioStats_legacy_field_witness :
    radioStats parseNat envLegacyUp =
      (ProxyResponse.legacy "Artist - Song", endpoints ++ [url7html]) := by
  have h := radioStats_legacy_field parseNat envLegacyUp (by decide) (by decide) (by decide)
    ⟨true, false, "a,b,c,d,e,f,Artist - Song"⟩ (by decide) rfl (by decide)
  rw [h]
  decide

/-- C3: the handler answers the 500 failure exactly when all three loop
iterations fall through and the legacy attempt yields nothing; an answer
of kind `err` carries status 500, and in every other case the answer is
status data (a parsed body or the normalized legacy object), not an
error. -/
theorem radioStats_error_iff {α : Type} (parse : String → Option α)
    (env : String → Fetched) :
    ((∃ e, (radioStats parse env).1 = ProxyResponse.err e) ↔
      (loopSucceeds parse env urlStatsJsonHttps = none ∧
       loopSucceeds parse env urlStatusXsl = none ∧
       loopSucceeds parse env urlStatsJsonHttp = none ∧
       legacy7 (env url7html) = none)) ∧
    (∀ e, (radioStats parse env).1 = ProxyResponse.err e →
      statusCode (radioStats parse env).1 = 500) ∧
    ((¬ ∃ e, (radioStats parse env).1 = ProxyResponse.err e) →
      (∃ d, (radioStats parse env).1 = ProxyResponse.ok d) ∨
      (∃ s, (radioStats parse env).1 = ProxyResponse.legacy s)) := by
  rcases hA : stepEndpoint parse (env urlStatsJsonHttps) with ⟨dA, eA⟩
  rcases hB : stepEndpoint parse (env urlStatusXsl) with ⟨dB, eB⟩
  rcases hC : stepEndpoint parse (env urlStatsJsonHttp) with ⟨dC, eC⟩
  rcases h7 : legacy7 (env url7html) with _ | s <;>
    cases dA <;> cases dB <;> cases dC <;> cases eA <;> cases eB <;> cases eC <;>
      simp [radioStats, runEndpoints, endpoints, statusCode, loopSucceeds, hA, hB, hC, h7]

/-- Witness for `radioStats_error_iff`: with every fetch down, the handler
answers an error. -/
theorem radioStats_error_iff_witness :
    ∃ e, (radioStats parseNat envAllDown).1 = ProxyResponse.err e :=
  (radioStats_error_iff parseNat envAllDown).1.mpr
    ⟨by decide, by decide, by decide, by decide⟩

/-! ## Client theorems -/

theorem historyStep_length_le (t a : String) (c : Option String) (n : Nat)
    (prev : List HistoryItem) (h : prev.length ≤ 10) :
    ((historyStep t a c n prev).1).length ≤ 10 := by
  unfold historyStep
  by_cases hd : isDupHead t a prev = true
  · rw [if_pos hd]
    exact h
  · rw [if_neg hd]
    simp only [List.length_take]
    omega

/-- C4: the history updater prepends each accepted track at the head and
truncates to the first 10 entries, exactly that truncated list is
persisted, every persisted list has at most 10 entries, and along any
sequence of updates starting from the empty history the list never
exceeds 10 entries. -/
theorem history_bounded_newest_first :
    (∀ (t a : String) (c : Option String) (n : Nat) (prev : List HistoryItem),
      (prev.length ≤ 10 → ((historyStep t a c n prev).1).length ≤ 10) ∧
      (isDupHead t a prev = false →
        historyStep t a c n prev =
          ((⟨t, a, c, n⟩ :: prev).take 10, some ((⟨t, a, c, n⟩ :: prev).take 10))) ∧
      (∀ l, (historyStep t a c n prev).2 = some l →
        l = (historyStep t a c n prev).1 ∧ l.length ≤ 10)) ∧
    (∀ updates : List (String × String × Option String × Nat),
      (updates.foldl (fun acc u => (historyStep u.1 u.2.1 u.2.2.1 u.2.2.2 acc).1)
        []).length ≤ 10) := by
  constructor
  · intro t a c n prev
    refine ⟨historyStep_length_le t a c n prev, ?_, ?_⟩
    · intro hnd
      unfold historyStep
      rw [if_neg (by simp [hnd])]
    · intro l hl
      unfold historyStep at hl ⊢
      by_cases hd : isDupHead t a prev = true
      · rw [if_pos hd] at hl
        exact absurd hl (by simp)
      · rw [if_neg hd] at hl ⊢
        simp only [Option.some.injEq] at hl
        subst hl
        simp only [List.length_take, true_and]
        omega
  · intro updates
    have key : ∀ (us : List (String × String × Option String × Nat))
        (h : List HistoryItem), h.length ≤ 10 →
        (us.foldl (fun acc u => (historyStep u.1 u.2.1 u.2.2.1 u.2.2.2 acc).1) h).length ≤ 10 := by
      intro us
      induction us with
      | nil => intro h hh; simpa using hh
      | cons u us IH =>
        intro h hh
        simp only [List.foldl_cons]
        exact IH _ (historyStep_length_le _ _ _ _ _ hh)
    exact key updates [] (by simp)

/-- Witness for `history_bounded_newest_first`: a non-duplicate update on
the empty history yields the singleton list, which is also persisted. -/
theorem history_bounded_newest_first_witness :
    historyStep "T" "A" none 5 [] =
      ([⟨"T", "A", none, 5⟩], some [⟨"T", "A", none, 5⟩]) := by
  have h := (history_bounded_newest_first.1 "T" "A" none 5 []).2.1 (by decide)
  rw [h]
  decide

/-- A concrete client state whose history head is the track derived from
`"A - B"` (artist `"A"`, title `"B"`). -/
def stDup : ClientState :=
  ⟨⟨"B", some "A", none, none, .online⟩, [⟨"B", "A", none, 0⟩], none, none, false⟩

/-- C5: a metadata update whose derived title and artist both equal those
of the head history entry leaves the history list and the persisted
storage unchanged. -/
theorem duplicate_head_not_reappended (raw : String) (cover : Option String) (now : Nat)
    (st : ClientState) (hraw : raw ≠ "")
    (hdup : isDupHead (deriveArtistTitle raw).2 (deriveArtistTitle raw).1 st.history = true) :
    (clientFetchStep (ClientFetch.ok (some raw)) cover now st).history = st.history ∧
    (clientFetchStep (ClientFetch.ok (some raw)) cover now st).storage = st.storage := by
  simp only [clientFetchStep]
  rw [if_neg hraw]
  simp [historyStep, if_pos hdup]

/-- Witness for `duplicate_head_not_reappended` at the songtitle
`"A - B"` and a state whose history head is that track. -/
theorem duplicate_head_not_reappended_witness :
    (clientFetchStep (ClientFetch.ok (some "A - B")) none 1 stDup).history = stDup.history ∧
    (clientFetchStep (ClientFetch.ok (some "A - B")) none 1 stDup).storage = stDup.storage :=
  duplicate_head_not_reappended "A - B" none 1 stDup (by decide) (by decide)

/-- C7: a failed client metadata fetch is non-fatal: in both component
variants the catch branch only overwrites the displayed metadata with the
static Portuguese placeholder (keeping the remaining metadata fields and
all other state), and nothing else happens. -/
theorem fetch_failure_placeholder (coverUrl : Option String) (now : Nat) (st : ClientState)
    (m : RadioMetadata) :
    clientFetchStep ClientFetch.failure coverUrl now st =
      { st with metadata :=
        { st.metadata with
          status := .online
          songtitle := "Erro ao carregar metadados"
          artist := some "SoundPop" } } ∧
    rpFetchStep ClientFetch.failure m =
      { m with
        status := .online
        songtitle := "Sintonizando..."
        artist := some "Rádio Fox" } :=
  ⟨rfl, rfl⟩

/-- C10: the error branch of the client fetch is a frame: history, the
persisted storage value, the lyrics panel state, and the metadata fields
`title` and `cover` are untouched; only `status`, `songtitle` and
`artist` are written. -/
theorem fetch_failure_frame (coverUrl : Option String) (now : Nat) (st : ClientState) :
    (clientFetchStep ClientFetch.failure coverUrl now st).history = st.history ∧
    (clientFetchStep ClientFetch.failure coverUrl now st).storage = st.storage ∧
    (clientFetchStep ClientFetch.failure coverUrl now st).lyrics = st.lyrics ∧
    (clientFetchStep ClientFetch.failure coverUrl now st).showLyrics = st.showLyrics ∧
    (clientFetchStep ClientFetch.failure coverUrl now st).metadata.title = st.metadata.title ∧
    (clientFetchStep ClientFetch.failure coverUrl now st).metadata.cover = st.metadata.cover ∧
    (clientFetchStep ClientFetch.failure coverUrl now st).metadata.songtitle =
      "Erro ao carregar metadados" ∧
    (clientFetchStep ClientFetch.failure coverUrl now st).metadata.artist = some "SoundPop" ∧
    (clientFetchStep ClientFetch.failure coverUrl now st).metadata.status = RadioStatus.online :=
  ⟨rfl, rfl, rfl, rfl, rfl, rfl, rfl, rfl, rfl⟩

/-- C8: the client invokes the metadata fetch once at mount (time 0) and
then on a single fixed-period timer; the period is exactly 10 seconds and
consecutive fetch times always differ by exactly that period (no other
schedule, no backoff). -/
theorem metadata_poll_schedule :
    metadataPollPeriodMs = 10 * 1000 ∧
    metadataFetchTimeMs 0 = 0 ∧
    (∀ n : Nat, metadataFetchTimeMs (n + 1) = metadataFetchTimeMs n + metadataPollPeriodMs) := by
  refine ⟨rfl, rfl, fun n => ?_⟩
  simp [metadataFetchTimeMs, Nat.succ_mul]

/-- C6, counterexample to the claim as stated: the three loop requests
use a 4000 ms timeout but the legacy `7.html` request of the same
fallback sequence uses 3000 ms, so not every request uses one and the
same timeout. -/
theorem fallback_timeout_counterexample :
    (urlStatsJsonHttps, 4000) ∈ fallbackRequestsMs ∧
    (url7html, 3000) ∈ fallbackRequestsMs ∧
    ¬ (∀ p ∈ fallbackRequestsMs, ∀ q ∈ fallbackRequestsMs, p.2 = q.2) := by
  decide

/-- C6, amended: each of the three loop requests uses the same fixed
4000 ms timeout, the legacy request uses a fixed 3000 ms timeout, and the
timeouts never escalate along the attempt sequence (each is at most the
previous one). -/
theorem fallback_timeouts_fixed :
    fallbackRequestsMs.map Prod.snd = [4000, 4000, 4000, 3000] ∧
    List.Chain' (fun a b => b ≤ a) (fallbackRequestsMs.map Prod.snd) := by
  refine ⟨rfl, ?_⟩
  have h : fallbackRequestsMs.map Prod.snd = [4000, 4000, 4000, 3000] := rfl
  rw [h]
  simp [List.chain'_cons]
